import Mathlib

/-!
Verification of the quiz session engine of the Pinnaclelabs Python internship
repository.

The repository contains two quiz-flow implementations:
  * `q/q.py` — the database-backed app: the student panel keeps
    `st.session_state.index / score / answers`, the "Submit Answer" button
    scores the current question, appends an answer dict, and on the last
    question calls `save_attempt` and resets the counters (lines 350-395);
  * `quiz_app.py` — the inline app with a fixed two-question list
    `QUESTIONS`, keeping `st.session_state.current / score / finished`
    (lines 4-61).

Both handlers are embedded below as pure step functions on explicit state,
with Python numbers modelled as exact integers (only exact addition and
comparison of marks occur in the engine) and Python string equality as Lean
string equality (both are exact, case- and whitespace-sensitive).
-/

/-- A quiz question as stored in the question bank (`q.py` `add_question`,
`quiz_app.py` `QUESTIONS` entries): prompt text, option list, correct answer
and marks.  Python numeric marks (ints in `quiz_app.py`, numbers from the
teacher form in `q.py`) are modelled as exact integers. -/
structure Question where
  question : String
  options : List String
  answer : String
  marks : ℤ
  deriving DecidableEq, Repr

/-- The answer record appended per submission (`q.py` lines 376-381).  The
source dict stores `question`, `selected`, `correct`, `is_correct`; `points`
additionally records the score delta that the same submission applies to
`st.session_state.score` (`q.py` lines 372-374), i.e. the spec's
`pointsAwarded`, which the source keeps only inside the running total. -/
structure AnswerRecord where
  question : String
  selected : String
  correct : String
  is_correct : Bool
  points : ℤ
  deriving DecidableEq, Repr

/-- A saved attempt (`q.py` `save_attempt`, lines 93-101 and the call at
387-389): final score, max score (sum of all marks) and the full answer log.
`username`, `course_code` and the wall-clock `timestamp` are caller identity
and real-time data outside the engine model. -/
structure Attempt where
  score : ℤ
  max_score : ℤ
  details : List AnswerRecord
  deriving DecidableEq, Repr

/-- Session state of the database-backed student panel (`q.py` lines
360-363): `st.session_state.index`, `.score`, `.answers`. -/
structure DbState where
  index : Nat
  score : ℤ
  answers : List AnswerRecord
  deriving DecidableEq, Repr

/-- The initial session state (`q.py` lines 360-363: `index = 0`,
`score = 0`, `answers = []`). -/
def dbInit : DbState := ⟨0, 0, []⟩

/-- One click of the `q.py` "Submit Answer" button (lines 365-395), given the
question list the rerun fetched.  `q = questions[index]` is looked up first
(line 365; an out-of-range index raises before any mutation, modelled as an
unchanged state).  The handler compares `choice == q["answer"]`, adds the
marks when correct, appends the answer dict, and either advances `index` or —
on the last question — emits the attempt record and resets the counters
(lines 392-395). -/
def dbSubmit (questions : List Question) (choice : String) (s : DbState) :
    DbState × Option Attempt :=
  match questions[s.index]? with
  | none => (s, none)
  | some q =>
    let correct := choice == q.answer
    let score := if correct then s.score + q.marks else s.score
    let answers := s.answers ++ [⟨q.question, choice, q.answer, correct,
      if correct then q.marks else 0⟩]
    if s.index + 1 < questions.length then
      (⟨s.index + 1, score, answers⟩, none)
    else
      (dbInit, some ⟨score, (questions.map fun q => q.marks).sum, answers⟩)

/-- A sequence of "Submit Answer" clicks against a fixed question list,
collecting the emitted attempts in order. -/
def dbRun (questions : List Question) (choices : List String) (s : DbState) :
    DbState × List Attempt :=
  match choices with
  | [] => (s, [])
  | c :: cs =>
    let p := dbSubmit questions c s
    let r := dbRun questions cs p.1
    (r.1, p.2.toList ++ r.2)

/-- Session start in the student panel (`q.py` lines 354-363): with a
non-empty question list the counters are initialised; an empty list only
shows a warning and creates no session. -/
def dbStart (questions : List Question) : Option DbState :=
  if questions.isEmpty then none else some dbInit

/-- Validation of the teacher "Add Question" handler (`q.py` lines 230-238):
all fields must be non-empty and the correct answer must be one of the
options, otherwise the question is rejected. -/
def addQuestionGuard (course question : String) (options : List String)
    (answer : String) : Bool :=
  if course == "" || question == "" || options.isEmpty || answer == "" then
    false
  else if options.contains answer then true else false

/-- The student panel re-runs `get_questions(course)` on every rerun (`q.py`
line 355), so each submit step sees the question bank as it is at that
rerun.  Each step pairs the bank visible at that rerun with the submitted
choice. -/
def dbRunBanks (steps : List (List Question × String)) (s : DbState) :
    DbState × List Attempt :=
  match steps with
  | [] => (s, [])
  | bc :: rest =>
    let p := dbSubmit bc.1 bc.2 s
    let r := dbRunBanks rest p.1
    (r.1, p.2.toList ++ r.2)

/-- The inline fixed question list of `quiz_app.py` (lines 4-17). -/
def QUESTIONS : List Question :=
  [⟨"Which keyword is used to define a function in Python?",
      ["func", "def", "function", "lambda"], "def", 1⟩,
   ⟨"Which data type is immutable?",
      ["list", "dict", "set", "tuple"], "tuple", 1⟩]

/-- Session state of `quiz_app.py` (lines 20-25): `st.session_state.current`,
`.score`, `.finished`. -/
structure AppState where
  current : Nat
  score : ℤ
  finished : Bool
  deriving DecidableEq, Repr

/-- The initial `quiz_app.py` state (lines 20-25). -/
def appInit : AppState := ⟨0, 0, false⟩

/-- One click of the `quiz_app.py` "Submit answer" button (lines 36-61),
parameterised over the question list (the source inlines `QUESTIONS`).
When the quiz is finished the question view — submit button included — is
not rendered (line 36), so a click is a no-op.  The radio widget uses
`index=None` (line 44), so the choice may be `None`, which only shows a
warning (lines 47-48).  Otherwise the choice is scored, and `current`
advances or `finished` is set (lines 50-61).  The returned verdict is the
feedback shown: `some true` = "Correct!", `some false` = "Wrong". -/
def appSubmit (questions : List Question) (choice : Option String)
    (s : AppState) : AppState × Option Bool :=
  if s.finished then (s, none)
  else
    match questions[s.current]? with
    | none => (s, none)
    | some q =>
      match choice with
      | none => (s, none)
      | some c =>
        let verdict := c == q.answer
        let score := if verdict then s.score + q.marks else s.score
        if s.current + 1 < questions.length then
          (⟨s.current + 1, score, false⟩, some verdict)
        else
          (⟨s.current, score, true⟩, some verdict)

/-- A sequence of `quiz_app.py` submit clicks, collecting the verdicts shown. -/
def appRun (questions : List Question) (choices : List (Option String))
    (s : AppState) : AppState × List Bool :=
  match choices with
  | [] => (s, [])
  | c :: cs =>
    let p := appSubmit questions c s
    let r := appRun questions cs p.1
    (r.1, p.2.toList ++ r.2)

/-- The scoring rule, extracted as the pure function both handlers inline
(`q.py` lines 372-374, `quiz_app.py` lines 50-51): exact string equality of
the choice with the correct answer; full marks when correct, zero otherwise. -/
def scorePolicy (q : Question) (selected : String) : Bool × ℤ :=
  (selected == q.answer, if selected == q.answer then q.marks else 0)

/-- The answer record the `q.py` handler appends for question `q` and
choice `c` (lines 376-381, plus the score delta of lines 373-374). -/
def answerRec (q : Question) (c : String) : AnswerRecord :=
  ⟨q.question, c, q.answer, c == q.answer, if c == q.answer then q.marks else 0⟩

/-- The answer records produced for a list of (question, choice) pairs. -/
def recordsOf (l : List (Question × String)) : List AnswerRecord :=
  l.map fun p => answerRec p.1 p.2

/-- The verdicts shown for a list of (question, choice) pairs. -/
def verdictsOf (l : List (Question × String)) : List Bool :=
  l.map fun p => p.2 == p.1.answer

/-- The total score awarded for a list of (question, choice) pairs. -/
def scoreOf (l : List (Question × String)) : ℤ :=
  (l.map fun p => (scorePolicy p.1 p.2).2).sum

/-- The maximum score of a question list (`q.py` line 388,
`quiz_app.py` line 37: the sum of all marks). -/
def marksSum (qs : List Question) : ℤ :=
  (qs.map fun q => q.marks).sum

/-- A single-question sample set (Scenario A of the spec). -/
def sampleQ : Question := ⟨"2+2?", ["3", "4", "5"], "4", 1⟩

/-- A question whose correct answer is not among its options (invalid per
the spec's data model). -/
def badQ : Question := ⟨"t", ["a", "b"], "c", 1⟩

/-- First question of the concurrent-edit scenario. -/
def bankQ1 : Question := ⟨"first", ["a"], "a", 1⟩

/-- Second question of the concurrent-edit scenario, as originally stored. -/
def bankQ2 : Question := ⟨"second", ["b", "z"], "b", 1⟩

/-- The second question after a concurrent teacher edit flips its correct
answer (`q.py` `update_question`). -/
def bankQ2e : Question := ⟨"second", ["b", "z"], "z", 1⟩

/-- The session invariant of the student panel: one log record per submitted
answer, and the running score is the sum of the recorded score deltas. -/
def dbInv (s : DbState) : Prop :=
  s.answers.length = s.index ∧
  s.score = (s.answers.map fun r => r.points).sum

/-- Modelled from the spec: the session status of §3 — missing from the
source, whose student panel has no status field and instead resets its
counters in place after `save_attempt` (`q.py` lines 392-395), which §9
models as discarding the completed session. -/
inductive SessionStatus where
  | inProgress
  | completed
  deriving DecidableEq, Repr

/-- Modelled from the spec: the error taxonomy of §7 for the re-architected
engine — missing from the source, which validates the answer-in-options rule
at ingestion and never raises either error at session level. -/
inductive QuizError where
  | invalidQuestionSet
  | sessionCompleted
  deriving DecidableEq, Repr

/-- Modelled from the spec: the re-architected QuizSession of §3/§4.1 —
missing from the source, which keeps the same data in
`st.session_state.index / score / answers` without a status. -/
structure SpecSession where
  questionSet : List Question
  position : Nat
  score : ℤ
  answerLog : List AnswerRecord
  status : SessionStatus
  deriving DecidableEq, Repr

/-- Modelled from the spec: `start(questionSet)` of §4.1 — fails with
`InvalidQuestionSet` on an empty set or one containing a question whose
correct answer is not among its options, else builds the fresh session. -/
def specStart (qs : List Question) : Except QuizError SpecSession :=
  if qs.isEmpty || qs.any fun q => !(q.options.contains q.answer) then
    Except.error QuizError.invalidQuestionSet
  else
    Except.ok ⟨qs, 0, 0, [], SessionStatus.inProgress⟩

/-- Modelled from the spec: `submitAnswer` of §4.1 — on a `Completed`
session it fails with `SessionCompleted` and returns the session unchanged;
in progress it applies the scoring policy, appends the answer record,
advances the position and completes on exhaustion.  The out-of-range lookup
while in progress is unreachable under the session invariant and returns
the same failure. -/
def specSubmit (s : SpecSession) (c : String) :
    SpecSession × Option QuizError :=
  match s.status with
  | SessionStatus.completed => (s, some QuizError.sessionCompleted)
  | SessionStatus.inProgress =>
    match s.questionSet[s.position]? with
    | none => (s, some QuizError.sessionCompleted)
    | some q =>
      (⟨s.questionSet, s.position + 1, s.score + (scorePolicy q c).2,
        s.answerLog ++ [answerRec q c],
        if s.position + 1 = s.questionSet.length then SessionStatus.completed
        else SessionStatus.inProgress⟩, none)

section StepLemmas

/-- A non-final submission advances the index, applies the scoring delta and
appends the answer record. -/
lemma dbSubmit_mid (qs : List Question) (c : String) (s : DbState)
    (h : s.index < qs.length) (h2 : s.index + 1 < qs.length) :
    dbSubmit qs c s =
      (⟨s.index + 1, s.score + (scorePolicy qs[s.index] c).2,
        s.answers ++ [answerRec qs[s.index] c]⟩, none) := by
  unfold dbSubmit
  rw [List.getElem?_eq_getElem h]
  cases hb : (c == qs[s.index].answer) <;>
    simp [h2, scorePolicy, answerRec, hb]

/-- The final submission emits the attempt record and resets the counters. -/
lemma dbSubmit_last (qs : List Question) (c : String) (s : DbState)
    (h : s.index < qs.length) (h2 : ¬ s.index + 1 < qs.length) :
    dbSubmit qs c s =
      (dbInit, some ⟨s.score + (scorePolicy qs[s.index] c).2, marksSum qs,
        s.answers ++ [answerRec qs[s.index] c]⟩) := by
  unfold dbSubmit
  rw [List.getElem?_eq_getElem h]
  cases hb : (c == qs[s.index].answer) <;>
    simp [h2, scorePolicy, answerRec, marksSum, hb]

/-- An out-of-range index leaves the state unchanged (the Python handler
raises before mutating anything). -/
lemma dbSubmit_oob (qs : List Question) (c : String) (s : DbState)
    (h : qs.length ≤ s.index) :
    dbSubmit qs c s = (s, none) := by
  unfold dbSubmit
  rw [List.getElem?_eq_none h]

end StepLemmas

section RunLemmas

/-- Unfolding of `dbRun` on a first submission. -/
lemma dbRun_cons (qs : List Question) (c : String) (cs : List String)
    (s : DbState) :
    dbRun qs (c :: cs) s =
      ((dbRun qs cs (dbSubmit qs c s).1).1,
       (dbSubmit qs c s).2.toList ++ (dbRun qs cs (dbSubmit qs c s).1).2) :=
  rfl

/-- Unfolding of `dbRun` on no submissions. -/
lemma dbRun_nil (qs : List Question) (s : DbState) : dbRun qs [] s = (s, []) :=
  rfl

lemma scoreOf_nil : scoreOf [] = 0 := rfl

lemma scoreOf_cons (p : Question × String) (l : List (Question × String)) :
    scoreOf (p :: l) = (scorePolicy p.1 p.2).2 + scoreOf l := by
  simp [scoreOf]

lemma recordsOf_nil : recordsOf [] = [] := rfl

lemma recordsOf_cons (p : Question × String) (l : List (Question × String)) :
    recordsOf (p :: l) = answerRec p.1 p.2 :: recordsOf l := rfl

lemma verdictsOf_cons (p : Question × String) (l : List (Question × String)) :
    verdictsOf (p :: l) = (p.2 == p.1.answer) :: verdictsOf l := rfl

/-- Splitting the zip of the remaining questions with a first choice. -/
lemma zip_drop_cons (qs : List Question) (c : String) (cs : List String)
    (n : Nat) (h : n < qs.length) :
    (qs.drop n).zip (c :: cs) =
      (qs[n], c) :: ((qs.drop (n + 1)).zip cs) := by
  rw [List.drop_eq_getElem_cons h, List.zip_cons_cons]

/-- Running strictly fewer submissions than there are remaining questions
emits no attempt; the index advances by the number of submissions, and the
score and log accumulate exactly the per-question scoring results. -/
lemma dbRun_mid : ∀ (cs : List String) (qs : List Question) (s : DbState),
    s.index + cs.length < qs.length →
    dbRun qs cs s =
      (⟨s.index + cs.length, s.score + scoreOf ((qs.drop s.index).zip cs),
        s.answers ++ recordsOf ((qs.drop s.index).zip cs)⟩, []) := by
  intro cs
  induction cs with
  | nil =>
    intro qs s h
    obtain ⟨i, sc, a⟩ := s
    simp [dbRun, scoreOf, recordsOf]
  | cons c cs ih =>
    intro qs s h
    have hx : s.index < qs.length := by simp at h; omega
    have hx1 : s.index + 1 < qs.length := by simp at h; omega
    have hdrop : qs.drop s.index = qs[s.index] :: qs.drop (s.index + 1) :=
      List.drop_eq_getElem_cons hx
    have hrec := ih qs ⟨s.index + 1, s.score + (scorePolicy qs[s.index] c).2,
      s.answers ++ [answerRec qs[s.index] c]⟩ (by simp at h ⊢; omega)
    dsimp only at hrec
    rw [dbRun_cons, dbSubmit_mid qs c s hx hx1]
    dsimp only
    rw [hrec, zip_drop_cons qs c cs s.index hx, scoreOf_cons, recordsOf_cons]
    simp [add_assoc, List.append_assoc]
    omega

/-- Running exactly as many submissions as there are remaining questions
emits exactly one attempt — carrying the accumulated score, the sum of all
marks, and the full log — and resets the state. -/
lemma dbRun_last : ∀ (cs : List String) (qs : List Question) (s : DbState),
    cs ≠ [] → s.index + cs.length = qs.length →
    dbRun qs cs s =
      (dbInit, [⟨s.score + scoreOf ((qs.drop s.index).zip cs), marksSum qs,
        s.answers ++ recordsOf ((qs.drop s.index).zip cs)⟩]) := by
  intro cs
  induction cs with
  | nil => intro qs s h; exact absurd rfl h
  | cons c cs ih =>
    intro qs s _ h
    have hx : s.index < qs.length := by simp at h; omega
    cases cs with
    | nil =>
      have hx1 : ¬ s.index + 1 < qs.length := by simp at h; omega
      rw [dbRun_cons, dbSubmit_last qs c s hx hx1]
      dsimp only
      rw [dbRun_nil, zip_drop_cons qs c [] s.index hx, scoreOf_cons,
        recordsOf_cons]
      simp [scoreOf_nil, recordsOf_nil]
    | cons c2 cs2 =>
      have hx1 : s.index + 1 < qs.length := by simp at h; omega
      have hrec := ih qs ⟨s.index + 1, s.score + (scorePolicy qs[s.index] c).2,
        s.answers ++ [answerRec qs[s.index] c]⟩ (by simp) (by simp at h ⊢; omega)
      dsimp only at hrec
      rw [dbRun_cons, dbSubmit_mid qs c s hx hx1]
      dsimp only
      rw [hrec, zip_drop_cons qs c (c2 :: cs2) s.index hx, scoreOf_cons,
        recordsOf_cons]
      simp [add_assoc, List.append_assoc]

/-- Unfolding of `dbRunBanks` on a first step. -/
lemma dbRunBanks_cons (bc : List Question × String)
    (rest : List (List Question × String)) (s : DbState) :
    dbRunBanks (bc :: rest) s =
      ((dbRunBanks rest (dbSubmit bc.1 bc.2 s).1).1,
       (dbSubmit bc.1 bc.2 s).2.toList ++
         (dbRunBanks rest (dbSubmit bc.1 bc.2 s).1).2) :=
  rfl

/-- Unfolding of `appRun` on a first submission. -/
lemma appRun_cons (qs : List Question) (c : Option String)
    (cs : List (Option String)) (s : AppState) :
    appRun qs (c :: cs) s =
      ((appRun qs cs (appSubmit qs c s).1).1,
       (appSubmit qs c s).2.toList ++ (appRun qs cs (appSubmit qs c s).1).2) :=
  rfl

/-- Unfolding of `appRun` on no submissions. -/
lemma appRun_nil (qs : List Question) (s : AppState) :
    appRun qs [] s = (s, []) :=
  rfl

/-- A non-final `quiz_app.py` submission with a selection advances `current`,
applies the scoring delta and reports the verdict. -/
lemma appSubmit_mid (qs : List Question) (c : String) (s : AppState)
    (hf : s.finished = false) (h : s.current < qs.length)
    (h2 : s.current + 1 < qs.length) :
    appSubmit qs (some c) s =
      (⟨s.current + 1, s.score + (scorePolicy qs[s.current] c).2, false⟩,
       some (c == qs[s.current].answer)) := by
  unfold appSubmit
  rw [hf, List.getElem?_eq_getElem h]
  cases hb : (c == qs[s.current].answer) <;>
    simp [h2, scorePolicy, hb]

/-- The final `quiz_app.py` submission applies the scoring delta and sets
`finished`, leaving `current` at the last question. -/
lemma appSubmit_last (qs : List Question) (c : String) (s : AppState)
    (hf : s.finished = false) (h : s.current < qs.length)
    (h2 : ¬ s.current + 1 < qs.length) :
    appSubmit qs (some c) s =
      (⟨s.current, s.score + (scorePolicy qs[s.current] c).2, true⟩,
       some (c == qs[s.current].answer)) := by
  unfold appSubmit
  rw [hf, List.getElem?_eq_getElem h]
  cases hb : (c == qs[s.current].answer) <;>
    simp [h2, scorePolicy, hb]

/-- Running strictly fewer `quiz_app.py` submissions than there are remaining
questions keeps the quiz unfinished; `current` advances by the number of
submissions and the score and verdicts accumulate the scoring results. -/
lemma appRun_mid : ∀ (cs : List String) (qs : List Question) (s : AppState),
    s.finished = false → s.current + cs.length < qs.length →
    appRun qs (cs.map some) s =
      (⟨s.current + cs.length, s.score + scoreOf ((qs.drop s.current).zip cs),
        false⟩, verdictsOf ((qs.drop s.current).zip cs)) := by
  intro cs
  induction cs with
  | nil =>
    intro qs s hf h
    obtain ⟨i, sc, f⟩ := s
    simp at hf
    simp [appRun_nil, scoreOf, verdictsOf, hf]
  | cons c cs ih =>
    intro qs s hf h
    have hx : s.current < qs.length := by simp at h; omega
    have hx1 : s.current + 1 < qs.length := by simp at h; omega
    have hrec := ih qs ⟨s.current + 1,
      s.score + (scorePolicy qs[s.current] c).2, false⟩ rfl
      (by simp at h ⊢; omega)
    dsimp only at hrec
    rw [List.map_cons, appRun_cons, appSubmit_mid qs c s hf hx hx1]
    dsimp only
    rw [hrec, zip_drop_cons qs c cs s.current hx, scoreOf_cons,
      verdictsOf_cons]
    simp [add_assoc]
    omega

/-- Running exactly as many `quiz_app.py` submissions as there are remaining
questions finishes the quiz: `current` stays at the last question, `finished`
is set, and the score and verdicts accumulate the scoring results. -/
lemma appRun_last : ∀ (cs : List String) (qs : List Question) (s : AppState),
    cs ≠ [] → s.finished = false → s.current + cs.length = qs.length →
    appRun qs (cs.map some) s =
      (⟨qs.length - 1, s.score + scoreOf ((qs.drop s.current).zip cs), true⟩,
       verdictsOf ((qs.drop s.current).zip cs)) := by
  intro cs
  induction cs with
  | nil => intro qs s h; exact absurd rfl h
  | cons c cs ih =>
    intro qs s _ hf h
    have hx : s.current < qs.length := by simp at h; omega
    cases cs with
    | nil =>
      have hx1 : ¬ s.current + 1 < qs.length := by simp at h; omega
      rw [List.map_cons, List.map_nil, appRun_cons,
        appSubmit_last qs c s hf hx hx1]
      dsimp only
      rw [appRun_nil, zip_drop_cons qs c [] s.current hx, scoreOf_cons,
        verdictsOf_cons]
      have hcur : s.current = qs.length - 1 := by simp at h; omega
      simp [scoreOf_nil, verdictsOf, hcur]
    | cons c2 cs2 =>
      have hx1 : s.current + 1 < qs.length := by simp at h; omega
      have hrec := ih qs ⟨s.current + 1,
        s.score + (scorePolicy qs[s.current] c).2, false⟩ (by simp) rfl
        (by simp at h ⊢; omega)
      dsimp only at hrec
      rw [List.map_cons, appRun_cons, appSubmit_mid qs c s hf hx hx1]
      dsimp only
      rw [hrec, zip_drop_cons qs c (c2 :: cs2) s.current hx, scoreOf_cons,
        verdictsOf_cons]
      simp [add_assoc]

end RunLemmas

section InvariantLemmas

/-- The initial state satisfies the session invariant. -/
lemma dbInv_init : dbInv dbInit := ⟨rfl, rfl⟩

/-- One submission preserves the session invariant. -/
lemma dbInv_submit (qs : List Question) (c : String) (s : DbState)
    (h : dbInv s) : dbInv (dbSubmit qs c s).1 := by
  unfold dbSubmit
  cases hq : qs[s.index]? with
  | none => simpa using h
  | some q =>
    obtain ⟨h1, h2⟩ := h
    by_cases h3 : s.index + 1 < qs.length
    · cases hb : (c == q.answer) <;>
        simp [h3, hb, dbInv, h1, h2]
    · cases hb : (c == q.answer) <;> simp [h3, hb, dbInv, dbInit]

/-- Any run of submissions preserves the session invariant. -/
lemma dbRun_inv : ∀ (cs : List String) (qs : List Question) (s : DbState),
    dbInv s → dbInv (dbRun qs cs s).1 := by
  intro cs
  induction cs with
  | nil => intro qs s h; exact h
  | cons c cs ih =>
    intro qs s h
    rw [dbRun_cons]
    exact ih qs (dbSubmit qs c s).1 (dbInv_submit qs c s h)

end InvariantLemmas

section SpecCorrespondence

/-- One in-progress step of the spec-modelled engine agrees with one click of
the `q.py` submit handler: same scoring delta and same appended record; on
the final question the spec session completes at position `N` carrying
exactly the score and log that the source hands to `save_attempt` before
resetting its counters. -/
lemma specSubmit_matches_db (c : String) (s : DbState) (ss : SpecSession)
    (hst : ss.status = SessionStatus.inProgress) (hpos : ss.position = s.index)
    (hsc : ss.score = s.score) (hlog : ss.answerLog = s.answers)
    (hx : s.index < ss.questionSet.length) :
    (specSubmit ss c).2 = none ∧
    (specSubmit ss c).1.position = s.index + 1 ∧
    (s.index + 1 < ss.questionSet.length →
      (specSubmit ss c).1.status = SessionStatus.inProgress ∧
      (specSubmit ss c).1.score = (dbSubmit ss.questionSet c s).1.score ∧
      (specSubmit ss c).1.answerLog = (dbSubmit ss.questionSet c s).1.answers) ∧
    (¬ s.index + 1 < ss.questionSet.length →
      (specSubmit ss c).1.status = SessionStatus.completed ∧
      ∃ a, (dbSubmit ss.questionSet c s).2 = some a ∧
        (specSubmit ss c).1.score = a.score ∧
        (specSubmit ss c).1.answerLog = a.details) := by
  obtain ⟨qset, pos, sc, log, st⟩ := ss
  dsimp only at hst hpos hsc hlog hx ⊢
  subst hst hpos hsc hlog
  unfold specSubmit
  dsimp only
  rw [List.getElem?_eq_getElem hx]
  by_cases h3 : s.index + 1 < qset.length
  · have hne : ¬ s.index + 1 = qset.length := by omega
    rw [dbSubmit_mid qset c s hx h3]
    simp [hne, h3]
  · have heq : s.index + 1 = qset.length := by omega
    rw [dbSubmit_last qset c s hx h3]
    simp [heq, h3]

end SpecCorrespondence

section AuxiliarySums

/-- The indicator-sum of awarded points equals the sum of marks over the
pairs whose choice equals the correct answer. -/
lemma scoreOf_eq_filter_sum : ∀ l : List (Question × String),
    scoreOf l =
      ((l.filter fun p => p.2 == p.1.answer).map fun p => p.1.marks).sum := by
  intro l
  induction l with
  | nil => rfl
  | cons p l ih =>
    rw [scoreOf_cons, ih]
    cases hb : (p.2 == p.1.answer) <;>
      simp [List.filter_cons, hb, scorePolicy]

/-- The correctness flags of the produced records are the verdicts. -/
lemma recordsOf_map_is_correct : ∀ l : List (Question × String),
    (recordsOf l).map (fun r => r.is_correct) = verdictsOf l := by
  intro l
  induction l with
  | nil => rfl
  | cons p l ih => simp [recordsOf_cons, verdictsOf_cons, answerRec, ih]

end AuxiliarySums

/-- C1: for every question and submitted option string, the scoring rule
marks the submission correct exactly when the string equals the question's
correct answer under exact (case- and whitespace-sensitive) string equality,
and awards the question's marks when correct and zero otherwise; both submit
handlers (`q.py` lines 371-381, `quiz_app.py` lines 50-54) apply exactly this
rule to the current question. -/
theorem c1_scoring_policy (qs : List Question) (c : String) (s : DbState)
    (h : s.index < qs.length) :
    ((scorePolicy qs[s.index] c).1 = true ↔ c = qs[s.index].answer) ∧
    (scorePolicy qs[s.index] c).2 =
      (if c = qs[s.index].answer then qs[s.index].marks else 0) ∧
    (answerRec qs[s.index] c).is_correct = (scorePolicy qs[s.index] c).1 ∧
    (answerRec qs[s.index] c).points = (scorePolicy qs[s.index] c).2 ∧
    (s.index + 1 < qs.length →
      dbSubmit qs c s = (⟨s.index + 1,
        s.score + (scorePolicy qs[s.index] c).2,
        s.answers ++ [answerRec qs[s.index] c]⟩, none)) ∧
    (¬ s.index + 1 < qs.length →
      dbSubmit qs c s = (dbInit, some ⟨s.score + (scorePolicy qs[s.index] c).2,
        marksSum qs, s.answers ++ [answerRec qs[s.index] c]⟩)) ∧
    (appSubmit qs (some c) ⟨s.index, s.score, false⟩).1.score =
      s.score + (scorePolicy qs[s.index] c).2 := by
  refine ⟨by simp [scorePolicy], ?_, rfl, rfl,
    fun h2 => dbSubmit_mid qs c s h h2,
    fun h2 => dbSubmit_last qs c s h h2, ?_⟩
  · by_cases hc : c = qs[s.index].answer <;> simp [scorePolicy, hc]
  · by_cases h2 : s.index + 1 < qs.length
    · rw [appSubmit_mid qs c ⟨s.index, s.score, false⟩ rfl h h2]
    · rw [appSubmit_last qs c ⟨s.index, s.score, false⟩ rfl h h2]

/-- Witness for C1 at Scenario A: question "2+2?" with correct answer "4",
submitted option "4". -/
theorem c1_scoring_policy_witness :
    (0 : Nat) < [sampleQ].length ∧
    ((scorePolicy sampleQ "4").1 = true ↔ "4" = sampleQ.answer) ∧
    (scorePolicy sampleQ "4").2 = 1 := by
  have h := c1_scoring_policy [sampleQ] "4" dbInit (by decide)
  exact ⟨by decide, h.1, by decide⟩

/-- C2: on a question set with `N ≥ 1` questions, a session started at the
initial state emits its attempt record (the completion event, `q.py` lines
386-390) exactly at the `N`-th submission — never earlier — and at that
point the answer log of the completed attempt has exactly `N` entries, the
spec's `position == N` (`len(answerLog) == position`). -/
theorem c2_completion_count (qs : List Question) (cs : List String)
    (hN : 1 ≤ qs.length) (hlen : cs.length = qs.length) :
    (∃ a, (dbRun qs cs dbInit).2 = [a] ∧ a.details.length = qs.length) ∧
    (∀ cs2 : List String, cs2.length < qs.length →
      (dbRun qs cs2 dbInit).2 = []) := by
  constructor
  · have hne : cs ≠ [] := by
      intro hc
      rw [hc] at hlen
      simp at hlen
      omega
    have h := dbRun_last cs qs dbInit hne (by simpa [dbInit] using hlen)
    refine ⟨_, by rw [h], ?_⟩
    simp [recordsOf, dbInit, hlen]
  · intro cs2 h2
    rw [dbRun_mid cs2 qs dbInit (by simpa [dbInit] using h2)]

/-- Witness for C2: the one-question set of Scenario A completes at the
first submission and no attempt exists before any submission. -/
theorem c2_completion_count_witness :
    (1 : Nat) ≤ [sampleQ].length ∧
    (∃ a, (dbRun [sampleQ] ["4"] dbInit).2 = [a] ∧
      a.details.length = [sampleQ].length) := by
  have h := c2_completion_count [sampleQ] ["4"] (by decide) (by decide)
  exact ⟨by decide, h.1⟩

/-- C3: for a complete run over a question set, the saved attempt's score is
the sum of the marks of exactly the questions whose submitted answer equals
their correct answer, its max score is the sum of all marks (`q.py` line
388), and its detail log records every question in order. -/
theorem c3_final_score (qs : List Question) (cs : List String)
    (hN : 1 ≤ qs.length) (hlen : cs.length = qs.length) :
    ∃ a, (dbRun qs cs dbInit).2 = [a] ∧
      a.score = (((qs.zip cs).filter fun p => p.2 == p.1.answer).map
        fun p => p.1.marks).sum ∧
      a.max_score = marksSum qs ∧
      a.details = recordsOf (qs.zip cs) := by
  have hne : cs ≠ [] := by
    intro hc
    rw [hc] at hlen
    simp at hlen
    omega
  have h := dbRun_last cs qs dbInit hne (by simpa [dbInit] using hlen)
  refine ⟨_, by rw [h], ?_, rfl, ?_⟩
  · simp [dbInit, scoreOf_eq_filter_sum]
  · simp [dbInit]

/-- Witness for C3 at Scenario C shape: marks [1, 2, 1] answered
correct / incorrect / correct give score 2 and max score 4. -/
theorem c3_final_score_witness :
    ∃ a, (dbRun [⟨"q1", ["a", "b"], "a", 1⟩, ⟨"q2", ["a", "b"], "b", 2⟩,
        ⟨"q3", ["a", "b"], "a", 1⟩] ["a", "a", "a"] dbInit).2 = [a] ∧
      a.score = 2 ∧ a.max_score = 4 := by
  have h := c3_final_score
    [⟨"q1", ["a", "b"], "a", 1⟩, ⟨"q2", ["a", "b"], "b", 2⟩,
     ⟨"q3", ["a", "b"], "a", 1⟩] ["a", "a", "a"] (by decide) (by decide)
  obtain ⟨a, h1, h2, h3, _⟩ := h
  refine ⟨a, h1, ?_, ?_⟩
  · rw [h2]; decide
  · rw [h3]; decide

/-- C4: in every session state reachable from the initial state by any
sequence of submissions, the answer log has exactly one record per counted
position and the running score is the sum of the recorded point awards. -/
theorem c4_session_invariant (qs : List Question) (cs : List String) :
    dbInv (dbRun qs cs dbInit).1 :=
  dbRun_inv cs qs dbInit dbInv_init

/-- C5: a spec-level submit on a session whose status is `Completed` fails
with `SessionCompleted` and leaves the session — score, position and answer
log included — unchanged.  (`specSubmit` is modelled from §4.1 of the spec:
the source has no completed-session object, `q.py` lines 392-395 reset the
counters in place, which the spec reads as discarding the session; the
in-progress behavior of `specSubmit` agrees with the `q.py` handler by
`specSubmit_matches_db`.) -/
theorem c5_completed_rejects (s : SpecSession) (c : String)
    (h : s.status = SessionStatus.completed) :
    specSubmit s c = (s, some QuizError.sessionCompleted) := by
  obtain ⟨qset, pos, sc, log, st⟩ := s
  dsimp only at h
  subst h
  rfl

/-- Witness for C5: completing the Scenario A session by one submission and
then submitting again fails with `SessionCompleted`, session unchanged. -/
theorem c5_completed_rejects_witness :
    specSubmit
        (specSubmit ⟨[sampleQ], 0, 0, [], SessionStatus.inProgress⟩ "4").1
        "3" =
      ((specSubmit ⟨[sampleQ], 0, 0, [], SessionStatus.inProgress⟩ "4").1,
        some QuizError.sessionCompleted) :=
  c5_completed_rejects _ "3" (by decide)

/-- C6 counterexample: a question set containing a question whose correct
answer is not among its options is not rejected at session start — the
student panel constructs the usual initial session for it, refuting the
claim that `start` fails on such sets. -/
theorem c6_counterexample :
    dbStart [badQ] = some dbInit ∧ badQ.answer ∉ badQ.options :=
  ⟨rfl, by decide⟩

/-- C6 amended: session start fails (producing no session) exactly when the
question set is empty, and otherwise yields the initial session; the
answer-in-options rule is enforced at ingestion by the Add Question handler
(`q.py` lines 230-238), whose acceptance implies membership. -/
theorem c6_amended_start (qs : List Question) :
    ((dbStart qs).isSome ↔ qs ≠ []) ∧
    (qs ≠ [] → dbStart qs = some dbInit) ∧
    (∀ course question options answer,
      addQuestionGuard course question options answer = true →
      answer ∈ options) := by
  refine ⟨?_, ?_, ?_⟩
  · cases qs <;> simp [dbStart]
  · intro h
    simp [dbStart, List.isEmpty_iff, h]
  · intro course question options answer h
    simp only [addQuestionGuard] at h
    split_ifs at h with h1 h2
    · simpa using h2

/-- Witness for C6 amended: a non-empty valid set starts at the initial
session, and an accepted Add Question form has its answer in its options. -/
theorem c6_amended_start_witness :
    dbStart [sampleQ] = some dbInit ∧ "b" ∈ ["a", "b"] :=
  ⟨(c6_amended_start [sampleQ]).2.1 (by decide),
   (c6_amended_start []).2.2 "CS101" "q" ["a", "b"] "b" (by decide)⟩

/-- C7: submitting an option string that is not among the current (valid)
question's options does not fail: the handler records it with
`is_correct = false` and zero points, leaves the score unchanged, and the
log grows by one — the index advancing on a non-final question, the attempt
carrying the unchanged score on the final one. -/
theorem c7_unlisted_option (qs : List Question) (c : String) (s : DbState)
    (h : s.index < qs.length) (hopt : c ∉ qs[s.index].options)
    (hval : qs[s.index].answer ∈ qs[s.index].options) :
    (answerRec qs[s.index] c).is_correct = false ∧
    (answerRec qs[s.index] c).points = 0 ∧
    (s.index + 1 < qs.length →
      dbSubmit qs c s = (⟨s.index + 1, s.score,
        s.answers ++ [answerRec qs[s.index] c]⟩, none)) ∧
    (¬ s.index + 1 < qs.length →
      dbSubmit qs c s = (dbInit, some ⟨s.score, marksSum qs,
        s.answers ++ [answerRec qs[s.index] c]⟩)) := by
  have hne : c ≠ qs[s.index].answer := fun he => hopt (he ▸ hval)
  have hb : (c == qs[s.index].answer) = false := by simp [hne]
  refine ⟨by simp [answerRec, hb], by simp [answerRec, hb], ?_, ?_⟩
  · intro h2
    rw [dbSubmit_mid qs c s h h2]
    simp [scorePolicy, hb]
  · intro h2
    rw [dbSubmit_last qs c s h h2]
    simp [scorePolicy, hb]

/-- Witness for C7 at Scenario D: submitting "banana" against the "2+2?"
question is recorded as incorrect with zero points and no failure. -/
theorem c7_unlisted_option_witness :
    "banana" ∉ sampleQ.options ∧
    (answerRec sampleQ "banana").is_correct = false ∧
    (answerRec sampleQ "banana").points = 0 ∧
    dbSubmit [sampleQ] "banana" dbInit =
      (dbInit, some ⟨0, 1, [answerRec sampleQ "banana"]⟩) := by
  have h := c7_unlisted_option [sampleQ] "banana" dbInit (by decide)
    (by decide) (by decide)
  refine ⟨by decide, h.1, h.2.1, ?_⟩
  have h4 := h.2.2.2 (by decide)
  simpa using h4

/-- C8 counterexample: two runs that start from the same question bank and
differ only in the bank visible at the second rerun — the teacher having
flipped the second question's correct answer mid-session — produce
different attempts, refuting the claim that a concurrent edit to the
question bank cannot affect what an in-flight session presents and scores
against: the student panel re-queries the bank on every rerun. -/
theorem c8_counterexample :
    (dbRunBanks [([bankQ1, bankQ2], "a"), ([bankQ1, bankQ2], "z")]
        dbInit).2 ≠
    (dbRunBanks [([bankQ1, bankQ2], "a"), ([bankQ1, bankQ2e], "z")]
        dbInit).2 := by
  decide

/-- C8 amended: the engine state itself never re-reads the bank — when
every rerun sees the same question list, the per-rerun run coincides with a
run against a fixed snapshot, so the session's question sequence is fixed
exactly while the underlying bank is unchanged. -/
theorem c8_amended_refetch (bank : List Question) (cs : List String)
    (s : DbState) :
    dbRunBanks (cs.map fun c => (bank, c)) s = dbRun bank cs s := by
  induction cs generalizing s with
  | nil => rfl
  | cons c cs ih =>
    rw [List.map_cons, dbRunBanks_cons, dbRun_cons]
    dsimp only
    rw [ih]

/-- C9: the database-backed and the inline quiz flows are behaviorally
equivalent engines: a complete run over the same question set and the same
submitted answer strings yields the same final score, identical per-question
correctness verdicts, and completion at exactly the same submission count
(the inline flow unfinished and the database flow attempt-free on every
shorter run). -/
theorem c9_engines_equivalent (qs : List Question) (cs : List String)
    (hN : 1 ≤ qs.length) (hlen : cs.length = qs.length) :
    ∃ a, (dbRun qs cs dbInit).2 = [a] ∧
      (appRun qs (cs.map some) appInit).1.score = a.score ∧
      (appRun qs (cs.map some) appInit).2 =
        a.details.map (fun r => r.is_correct) ∧
      (appRun qs (cs.map some) appInit).1.finished = true ∧
      (∀ cs2 : List String, cs2.length < qs.length →
        (dbRun qs cs2 dbInit).2 = [] ∧
        (appRun qs (cs2.map some) appInit).1.finished = false) := by
  have hne : cs ≠ [] := by
    intro hc
    rw [hc] at hlen
    simp at hlen
    omega
  have hdb := dbRun_last cs qs dbInit hne (by simpa [dbInit] using hlen)
  have happ := appRun_last cs qs appInit hne rfl
    (by simpa [appInit] using hlen)
  refine ⟨_, by rw [hdb], ?_, ?_, ?_, ?_⟩
  · rw [happ]
    simp [appInit, dbInit]
  · rw [happ]
    simp [dbInit, appInit, recordsOf_map_is_correct]
  · rw [happ]
  · intro cs2 h2
    constructor
    · rw [dbRun_mid cs2 qs dbInit (by simpa [dbInit] using h2)]
    · rw [appRun_mid cs2 qs appInit rfl (by simpa [appInit] using h2)]

/-- Witness for C9: the fixed inline `QUESTIONS` list answered
"def", "tuple" gives the same completed score 2 in both engines. -/
theorem c9_engines_equivalent_witness :
    (1 : Nat) ≤ QUESTIONS.length ∧
    (∃ a, (dbRun QUESTIONS ["def", "tuple"] dbInit).2 = [a] ∧
      (appRun QUESTIONS (["def", "tuple"].map some) appInit).1.score =
        a.score) := by
  have h := c9_engines_equivalent QUESTIONS ["def", "tuple"] (by decide)
    (by decide)
  obtain ⟨a, h1, h2, _⟩ := h
  exact ⟨by decide, a, h1, h2⟩

/-- C10: in the inline implementation, pressing submit with no option
selected changes nothing: the state — score, current position, finished
flag — is returned untouched and no verdict is produced, so a no-selection
submission never consumes a question. -/
theorem c10_none_selection_noop (qs : List Question) (s : AppState) :
    appSubmit qs none s = (s, none) := by
  unfold appSubmit
  cases hf : s.finished
  · cases hq : qs[s.current]? <;> simp [hq]
  · simp
